import Mathlib

/-!
Verification development for the `mssqlgen` schema generator.

The definitions below are a shallow embedding of the TypeScript sources:
  - `src/utils/type-mapper.ts`   (class `TypeMapper`)
  - `src/generators/schema-generator.ts` (class `SchemaGenerator`)
  - `src/core/generator.ts`      (class `MSSQLSchemaGenerator`)

JavaScript strings are embedded as `String` (with helper operations on the
underlying `List Char` mirroring `split`, `endsWith`, `slice`, `charAt`);
the `mssql` metadata rows are embedded as plain structures; `console.log`
warnings are embedded as returned lists of structured warning values; the
mutable `Set`s of the foreign-key closure loop are embedded as `Finset String`.
-/

namespace Mssqlgen

/-- `ColumnInfo` rows as consumed by the generators (src/types, populated by
`DatabaseConnector.getColumns`): only the fields the generators read. -/
structure ColumnInfo where
  name : String
  dataType : String
  isNullable : Bool
  deriving Repr, DecidableEq

/-- `ForeignKeyInfo` rows (src/types, populated by
`DatabaseConnector.getForeignKeys`): fields read by the generators. -/
structure ForeignKeyInfo where
  columnName : String
  referencedSchema : String
  referencedTable : String
  referencedColumn : String
  deriving Repr, DecidableEq

/-- `TableInfo` (src/types, populated by `DatabaseConnector.getTableInfo`). -/
structure TableInfo where
  name : String
  schema : String
  columns : List ColumnInfo
  primaryKeys : List String
  foreignKeys : List ForeignKeyInfo
  deriving Repr, DecidableEq

/-- A row of `DatabaseConnector.getTables`:
`{ schema, table, fullName: schema + "." + table }`. -/
structure CatalogTable where
  schema : String
  table : String
  fullName : String
  deriving Repr, DecidableEq

/-- `GraphQLField` (src/types). -/
structure GraphQLField where
  name : String
  type : String
  nullable : Bool
  deriving Repr, DecidableEq

/-- A query argument `{ name, type, required }` (src/types). -/
structure QueryArgument where
  name : String
  type : String
  required : Bool
  deriving Repr, DecidableEq

/-- `GraphQLQuery` (src/types). -/
structure GraphQLQuery where
  name : String
  returnType : String
  arguments : List QueryArgument
  dbQuery : String
  deriving Repr, DecidableEq

/-- `GraphQLType` (src/types); the generator leaves `description` undefined,
so it is omitted here. -/
structure GraphQLType where
  name : String
  fields : List GraphQLField
  deriving Repr, DecidableEq

/-! ### JavaScript string helpers

These model the JS string primitives used by the sources, on `List Char`.
Only ASCII case mapping matters for identifiers, matching `Char.toLower`. -/

/-- JS `str.split(sep)` for a one-character separator: `"" → [""]`,
separators at the ends produce empty segments. -/
def splitChar (sep : Char) : List Char → List (List Char)
  | [] => [[]]
  | c :: rest =>
    if c = sep then [] :: splitChar sep rest
    else
      match splitChar sep rest with
      | [] => [[c]]
      | p :: ps => (c :: p) :: ps

/-- JS `s.endsWith(suffix)` on character lists. -/
def endsWithL (s suffix : List Char) : Bool :=
  suffix.reverse.isPrefixOf s.reverse

/-- JS `s.slice(0, s.length - n)` (drop the last `n` characters). -/
def dropRightL (s : List Char) (n : Nat) : List Char :=
  s.take (s.length - n)

namespace TypeMapper

/-- `TypeMapper.TYPE_MAP` (type-mapper.ts lines 5–55): the object
literal's own entries, as an association list.  A bracket read on the
runtime object also resolves properties inherited from
`Object.prototype`; that part of the lookup is modelled by
`typeMapLookup` below. -/
def TYPE_MAP : List (String × String) :=
  [("int", "Int"), ("bigint", "Int"), ("smallint", "Int"), ("tinyint", "Int"),
   ("decimal", "Float"), ("numeric", "Float"), ("money", "Float"),
   ("smallmoney", "Float"), ("float", "Float"), ("real", "Float"),
   ("varchar", "String"), ("nvarchar", "String"), ("char", "String"),
   ("nchar", "String"), ("text", "String"), ("ntext", "String"),
   ("bit", "Boolean"),
   ("date", "String"), ("datetime", "String"), ("datetime2", "String"),
   ("smalldatetime", "String"), ("time", "String"), ("datetimeoffset", "String"),
   ("binary", "String"), ("varbinary", "String"), ("image", "String"),
   ("uniqueidentifier", "ID"),
   ("xml", "String"), ("json", "JSON"),
   ("sql_variant", "String"), ("timestamp", "String"), ("rowversion", "String")]

/-- JS `sqlType.toLowerCase()` on the embedded string (ASCII). -/
def lowerStr (s : String) : String := ⟨s.data.map Char.toLower⟩

/-- A value produced by the JS property read `TYPE_MAP[key]` followed by
`|| 'String'`: either a string, or a truthy non-string member inherited
from `Object.prototype` (such as `constructor`, the `Object` function,
or the `__proto__` accessor's result). -/
inductive JSPropValue where
  | str : String → JSPropValue
  | protoMember : String → JSPropValue
  deriving Repr, DecidableEq

/-- The JS property read `TYPE_MAP[key]` on the object literal: own
entries first, then the `Object.prototype` chain.  The key has already
been lower-cased, and the only all-lowercase member names of
`Object.prototype` are `constructor` and `__proto__` (all others, such
as `toString` or `valueOf`, contain an upper-case letter and are
unreachable after `toLowerCase()`); both resolve to truthy non-string
objects.  `none` models `undefined`. -/
def typeMapLookup (key : String) : Option JSPropValue :=
  match TYPE_MAP.lookup key with
  | some v => some (.str v)
  | none =>
    if key = "constructor" ∨ key = "__proto__" then some (.protoMember key)
    else none

/-- `TypeMapper.mapType` with the full JS semantics of
`TYPE_MAP[sqlType.toLowerCase()] || 'String'`: `||` returns the left
operand when it is truthy (`undefined` is falsy; every entry of the map
is a nonempty string, and the inherited prototype members are objects,
all truthy), so an inherited `Object.prototype` member is returned
as-is, not replaced by `'String'`. -/
def mapTypeJS (sqlType : String) : JSPropValue :=
  match typeMapLookup (lowerStr sqlType) with
  | some v => v
  | none => .str "String"

/-- `TypeMapper.mapType` restricted to the string-valued (own-key or
fallback) behaviour the rest of the generator consumes: it agrees with
`mapTypeJS` on every input whose lower-casing is neither `constructor`
nor `__proto__` (see `c7_map_type_fallback`), which covers every SQL
type name; on those two pathological inputs the program actually
returns the inherited non-string object that `mapTypeJS` reports. -/
def mapType (sqlType : String) : String :=
  (TYPE_MAP.lookup (lowerStr sqlType)).getD "String"

/-- `TypeMapper.formatFieldType`. -/
def formatFieldType (graphqlType : String) (isNullable : Bool) : String :=
  if isNullable then graphqlType else graphqlType ++ "!"

/-- One segment of `toCamelCase`/`toPascalCase` other than the camel head:
`part.charAt(0).toUpperCase() + part.slice(1).toLowerCase()`
(`charAt(0)` of an empty segment is `""`). -/
def capSegment : List Char → List Char
  | [] => []
  | c :: rest => c.toUpper :: rest.map Char.toLower

/-- `TypeMapper.toCamelCase`: split on `_`, lower-case the first segment,
capitalize-and-lower the rest, join with no separator. -/
def toCamelCase (name : String) : String :=
  match splitChar '_' name.data with
  | [] => ""
  | first :: rest => ⟨first.map Char.toLower ++ (rest.map capSegment).flatten⟩

/-- `TypeMapper.toPascalCase`: split on `_`, capitalize-and-lower every
segment, join with no separator. -/
def toPascalCase (name : String) : String :=
  ⟨((splitChar '_' name.data).map capSegment).flatten⟩

/-- `TypeMapper.isVowel` lifted to `Option Char`; `none` models the empty
string returned by `charAt` out of range, which is not a vowel. -/
def isVowelOpt : Option Char → Bool
  | none => false
  | some c => c.toLower ∈ (['a', 'e', 'i', 'o', 'u'] : List Char)

/-- Core of `TypeMapper.pluralize` on character lists (type-mapper.ts
lines 100–109): `s|x|ch|sh → +es`, consonant+`y → ies`, else `+s`;
`name.charAt(name.length - 2)` is the second-to-last character. -/
def pluralizeL (l : List Char) : List Char :=
  if endsWithL l ['s'] || endsWithL l ['x'] ||
     endsWithL l ['c', 'h'] || endsWithL l ['s', 'h'] then
    l ++ ['e', 's']
  else if endsWithL l ['y'] && !(isVowelOpt ((l.reverse.drop 1).head?)) then
    dropRightL l 1 ++ ['i', 'e', 's']
  else
    l ++ ['s']

/-- `TypeMapper.pluralize`. -/
def pluralize (name : String) : String := ⟨pluralizeL name.data⟩

/-- Core of `TypeMapper.singularize` on character lists (type-mapper.ts
lines 114–125): `ies → y`, then `es → `, then trailing `s` (but not `ss`). -/
def singularizeL (l : List Char) : List Char :=
  if endsWithL l ['i', 'e', 's'] then dropRightL l 3 ++ ['y']
  else if endsWithL l ['e', 's'] then dropRightL l 2
  else if endsWithL l ['s'] && !(endsWithL l ['s', 's']) then dropRightL l 1
  else l

/-- `TypeMapper.singularize`. -/
def singularize (name : String) : String := ⟨singularizeL name.data⟩

/-- `pascalCase.charAt(0).toLowerCase() + pascalCase.slice(1)` as used by
both query-name helpers. -/
def lowerFirst (s : String) : String :=
  match s.data with
  | [] => ""
  | c :: rest => ⟨c.toLower :: rest⟩

/-- `TypeMapper.getListQueryName`. -/
def getListQueryName (tableName : String) : String :=
  pluralize (lowerFirst (toPascalCase tableName))

/-- `TypeMapper.getSingleQueryName`. -/
def getSingleQueryName (tableName : String) : String :=
  lowerFirst (toPascalCase tableName)

end TypeMapper

namespace SchemaGenerator

open TypeMapper

/-- JS `s.replace(/suf$/, '')`: strip `suf` once from the end if present. -/
def stripSuffixOnce (s suf : String) : String :=
  if endsWithL s.data suf.data then ⟨dropRightL s.data suf.data.length⟩ else s

/-- The field built from one column in `SchemaGenerator.generateType`
(schema-generator.ts lines 11–16). -/
def columnField (column : ColumnInfo) : GraphQLField :=
  { name := toCamelCase column.name
    type := mapType column.dataType
    nullable := column.isNullable }

/-- The foreign-key field base name (schema-generator.ts lines 25–32):
camel-case the column, then apply the four anchored `replace` calls for
`Id`, `ID`, `_id`, `_ID` in that order. -/
def fkFieldBase (columnName : String) : String :=
  stripSuffixOnce (stripSuffixOnce (stripSuffixOnce
    (stripSuffixOnce (toCamelCase columnName) "Id") "ID") "_id") "_ID"

/-- The relationship field pushed for one foreign key
(schema-generator.ts lines 20–42): name `<base><RelatedType>`, type the
referenced table's PascalCase name, always nullable. -/
def fkField (fk : ForeignKeyInfo) : GraphQLField :=
  { name := fkFieldBase fk.columnName ++ toPascalCase fk.referencedTable
    type := toPascalCase fk.referencedTable
    nullable := true }

/-- `SchemaGenerator.generateType` (schema-generator.ts lines 8–50). -/
def generateType (table : TableInfo) (generateRelationships : Bool) : GraphQLType :=
  { name := toPascalCase table.name
    fields :=
      table.columns.map columnField ++
        (if generateRelationships && table.foreignKeys.length > 0 then
          table.foreignKeys.map fkField
        else []) }

/-- The list (get-all) query (schema-generator.ts lines 64–75); the
`databaseName` parameter of `generateQueries` is unused by the source. -/
def listQuery (table : TableInfo) (enableFiltering : Bool) : GraphQLQuery :=
  { name := getListQueryName table.name
    returnType := "[" ++ toPascalCase table.name ++ "]"
    arguments :=
      if enableFiltering then
        [{ name := "filter", type := toPascalCase table.name ++ "Filter", required := false }]
      else []
    dbQuery := table.schema ++ "." ++ table.name }

/-- `SchemaGenerator.generateQueries` (schema-generator.ts lines 55–98):
the list query, then the single-record query when `table.primaryKeys[0]`
is truthy (JS: `undefined` and `""` are falsy) and a column of that name
exists. -/
def generateQueries (table : TableInfo) (databaseName : String)
    (enableFiltering : Bool) : List GraphQLQuery :=
  let _ := databaseName
  listQuery table enableFiltering ::
    (match table.primaryKeys.head? with
     | none => []
     | some primaryKey =>
       if primaryKey = "" then []
       else
         match table.columns.find? (fun col => col.name == primaryKey) with
         | none => []
         | some pkColumn =>
           [{ name := getSingleQueryName table.name
              returnType := toPascalCase table.name
              arguments :=
                [{ name := toCamelCase primaryKey
                   type := mapType pkColumn.dataType
                   required := true }]
              dbQuery := "SELECT * FROM " ++ table.schema ++ "." ++ table.name ++
                " WHERE " ++ primaryKey ++ " = ?" }])

end SchemaGenerator

namespace MSSQLSchemaGenerator

open TypeMapper

/-- The `schema.table` string `getTables` attaches to each catalog row. -/
def fullNameOf (t : TableInfo) : String := t.schema ++ "." ++ t.name

/-- Kleene-star step for `globMatch`: `m` matches the rest of the pattern
against some suffix of the string. -/
def matchStar (m : List Char → Bool) : List Char → Bool
  | [] => m []
  | c :: s₂ => m (c :: s₂) || matchStar m s₂

/-- Glob-against-string matching: the regex built by
`matchTablePattern` from a wildcard pattern (dots escaped, `*` → `.*`,
`?` → `.`), anchored on both ends, case-insensitive.  Stated directly as
a matcher on character lists; assumes the pattern contains no other
regex metacharacters, which holds for `schema.table` patterns. -/
def globMatch : List Char → List Char → Bool
  | [], [] => true
  | [], _ :: _ => false
  | '*' :: ps, s => matchStar (globMatch ps) s
  | '?' :: _, [] => false
  | '?' :: ps, _ :: s₂ => globMatch ps s₂
  | _ :: _, [] => false
  | pc :: ps, c :: s₂ => (pc.toLower == c.toLower) && globMatch ps s₂

/-- `MSSQLSchemaGenerator.matchTablePattern` (generator.ts lines 308–317). -/
def matchTablePattern (fullTableName pattern₀ : String) : Bool :=
  globMatch pattern₀.data fullTableName.data

/-- `MSSQLSchemaGenerator.filterTables` (generator.ts lines 222–236):
empty pattern list selects every table; otherwise a table is kept when it
matches any pattern. -/
def filterTables (tables : List CatalogTable) (patterns : List String) : List String :=
  if patterns = [] then tables.map (·.fullName)
  else
    (tables.filter (fun t => patterns.any fun p => matchTablePattern t.fullName p)).map
      (·.fullName)

/-- `tableName.includes('.') ? tableName.split('.') : ['dbo', tableName]`
destructured to `[schema, table]` (generator.ts lines 254–256): the
segments before and after the first dot, or schema `dbo` when the name
has no dot. -/
def parseTableName (tableName : String) : String × String :=
  match splitChar '.' tableName.data with
  | p₁ :: p₂ :: _ => (⟨p₁⟩, ⟨p₂⟩)
  | _ => ("dbo", tableName)

/-- `DatabaseConnector.getTableInfo` against an in-memory catalog: the
table with the given name and schema, if any.  `none` feeds the
`try/catch` skip branch of the closure loop. -/
def getTableInfo (db : List TableInfo) (table schema : String) : Option TableInfo :=
  db.find? fun t => t.name == table && t.schema == schema

/-- The body of the foreign-key loop inside
`autoIncludeForeignKeyTables` (generator.ts lines 261–273): add the
referenced full name to the set and the queue when it is not yet in the
set and exists in `allTables`. -/
def fkStep (allTables : List CatalogTable) (acc : Finset String × List String)
    (fk : ForeignKeyInfo) : Finset String × List String :=
  if fk.referencedSchema ++ "." ++ fk.referencedTable ∉ acc.1 ∧
      allTables.any (fun t =>
        t.fullName == fk.referencedSchema ++ "." ++ fk.referencedTable) then
    (insert (fk.referencedSchema ++ "." ++ fk.referencedTable) acc.1,
      acc.2 ++ [fk.referencedSchema ++ "." ++ fk.referencedTable])
  else acc

/-- The catalog names that are still outside a set: drives termination of
the closure loop, since every enqueue removes one of them. -/
def freshCard (allTables : List CatalogTable) (s : Finset String) : Nat :=
  ((allTables.map (·.fullName)).toFinset \ s).card

theorem fkStep_measure (allTables : List CatalogTable) (fk : ForeignKeyInfo)
    (acc : Finset String × List String) :
    freshCard allTables (fkStep allTables acc fk).1 + (fkStep allTables acc fk).2.length =
      freshCard allTables acc.1 + acc.2.length := by
  unfold fkStep
  split
  · next h =>
    obtain ⟨hnot, hexists⟩ := h
    have hmem : fk.referencedSchema ++ "." ++ fk.referencedTable ∈
        (allTables.map (·.fullName)).toFinset := by
      simp only [List.mem_toFinset, List.mem_map]
      simp only [List.any_eq_true, beq_iff_eq] at hexists
      obtain ⟨t, ht, hteq⟩ := hexists
      exact ⟨t, ht, hteq⟩
    simp only [freshCard, List.length_append, List.length_cons, List.length_nil,
      Finset.sdiff_insert]
    have hin : fk.referencedSchema ++ "." ++ fk.referencedTable ∈
        (allTables.map (·.fullName)).toFinset \ acc.1 := Finset.mem_sdiff.mpr ⟨hmem, hnot⟩
    rw [Finset.card_erase_of_mem hin]
    have hpos : 0 < ((allTables.map (·.fullName)).toFinset \ acc.1).card :=
      Finset.card_pos.mpr ⟨_, hin⟩
    omega
  · rfl

theorem foldl_fkStep_measure (allTables : List CatalogTable)
    (fks : List ForeignKeyInfo) :
    ∀ acc : Finset String × List String,
      freshCard allTables (fks.foldl (fkStep allTables) acc).1 +
          (fks.foldl (fkStep allTables) acc).2.length =
        freshCard allTables acc.1 + acc.2.length := by
  induction fks with
  | nil => intro acc; rfl
  | cons fk fks ih =>
    intro acc
    simpa [List.foldl_cons] using (ih (fkStep allTables acc fk)).trans
      (fkStep_measure allTables fk acc)

/-- The `while` loop of `MSSQLSchemaGenerator.autoIncludeForeignKeyTables`
(generator.ts lines 249–278): dequeue a table name, skip it if already
processed, otherwise fetch its info (a fetch failure or absent table is
skipped by `try/catch`) and fold its foreign keys with `fkStep`. -/
def autoIncludeAux (db : List TableInfo) (allTables : List CatalogTable)
    (queue : List String) (tablesToProcess processed : Finset String) : Finset String :=
  match queue with
  | [] => tablesToProcess
  | tableName :: rest =>
    if tableName ∈ processed then
      autoIncludeAux db allTables rest tablesToProcess processed
    else
      let parsed := parseTableName tableName
      match getTableInfo db parsed.2 parsed.1 with
      | none => autoIncludeAux db allTables rest tablesToProcess (insert tableName processed)
      | some tableInfo =>
        let step := tableInfo.foreignKeys.foldl (fkStep allTables) (tablesToProcess, [])
        autoIncludeAux db allTables (rest ++ step.2) step.1 (insert tableName processed)
  termination_by queue.length + freshCard allTables tablesToProcess
  decreasing_by
  · simp only [List.length_cons]; omega
  · simp only [List.length_cons]; omega
  · have h := foldl_fkStep_measure allTables tableInfo.foreignKeys (tablesToProcess, [])
    simp only [List.length_nil, Nat.add_zero] at h
    simp only [List.length_append, List.length_cons]
    omega

/-- `MSSQLSchemaGenerator.autoIncludeForeignKeyTables`
(generator.ts lines 241–281), returning the final `tablesToProcess` set. -/
def autoIncludeForeignKeyTables (db : List TableInfo)
    (filteredTables : List String) (allTables : List CatalogTable) : Finset String :=
  autoIncludeAux db allTables filteredTables filteredTables.toFinset ∅

/-- One `console.log` warning of `warnMissingForeignKeyTables`, as data:
it names the referencing table, the referenced table and the column. -/
structure FKWarning where
  referencingSchema : String
  referencingName : String
  referencedFullName : String
  columnName : String
  deriving Repr, DecidableEq

/-- `MSSQLSchemaGenerator.warnMissingForeignKeyTables`
(generator.ts lines 286–302): a warning per foreign key whose referenced
full name is neither in `allTables` (the generation list) nor in the
processed set. -/
def warnMissingForeignKeyTables (tableInfo : TableInfo)
    (processedTables : Finset String) (allTables : List String) : List FKWarning :=
  tableInfo.foreignKeys.filterMap fun fk =>
    let referencedFullName := fk.referencedSchema ++ "." ++ fk.referencedTable
    if referencedFullName ∉ allTables ∧ referencedFullName ∉ processedTables then
      some { referencingSchema := tableInfo.schema
             referencingName := tableInfo.name
             referencedFullName := referencedFullName
             columnName := fk.columnName }
    else none

end MSSQLSchemaGenerator

/-! ### Fixtures

Small concrete catalogs used to evaluate the generator on the examples the
specification commits to. -/

open TypeMapper SchemaGenerator MSSQLSchemaGenerator

/-- `Customer(CustomerId PK int, Name nvarchar NULL)` in schema `dbo`. -/
def customerT : TableInfo :=
  { name := "Customer", schema := "dbo"
    columns := [⟨"CustomerId", "int", false⟩, ⟨"Name", "nvarchar", true⟩]
    primaryKeys := ["CustomerId"]
    foreignKeys := [] }

/-- `Order(OrderId PK int, CustomerId int FK → dbo.Customer.CustomerId)`. -/
def orderT : TableInfo :=
  { name := "Order", schema := "dbo"
    columns := [⟨"OrderId", "int", false⟩, ⟨"CustomerId", "int", false⟩]
    primaryKeys := ["OrderId"]
    foreignKeys := [⟨"CustomerId", "dbo", "Customer", "CustomerId"⟩] }

/-- A table whose foreign-key column `LastEditedBy` references `People`. -/
def invoiceT : TableInfo :=
  { name := "Invoice", schema := "dbo"
    columns := [⟨"InvoiceId", "int", false⟩]
    primaryKeys := ["InvoiceId"]
    foreignKeys := [⟨"LastEditedBy", "dbo", "People", "PersonID"⟩] }

/-- A table referencing `dbo.Ghost`, a table that is in no generation set. -/
def ghostFK : ForeignKeyInfo := ⟨"GhostId", "dbo", "Ghost", "GhostId"⟩

def ghostT : TableInfo :=
  { name := "Order", schema := "dbo"
    columns := [⟨"OrderId", "int", false⟩]
    primaryKeys := ["OrderId"]
    foreignKeys := [ghostFK] }

/-- A composite-primary-key table whose first key column `A` is not among
the columns while the second key column `B` is. -/
def compositePkT : TableInfo :=
  { name := "Thing", schema := "dbo"
    columns := [⟨"B", "int", false⟩]
    primaryKeys := ["A", "B"]
    foreignKeys := [] }

/-- Catalog `A → B → C` (each table references the next, `C` none). -/
def dbABC : List TableInfo :=
  [{ name := "A", schema := "s", columns := [], primaryKeys := [],
     foreignKeys := [⟨"BId", "s", "B", "BId"⟩] },
   { name := "B", schema := "s", columns := [], primaryKeys := [],
     foreignKeys := [⟨"CId", "s", "C", "CId"⟩] },
   { name := "C", schema := "s", columns := [], primaryKeys := [], foreignKeys := [] }]

def allABC : List CatalogTable :=
  [⟨"s", "A", "s.A"⟩, ⟨"s", "B", "s.B"⟩, ⟨"s", "C", "s.C"⟩]

/-- Catalog where `A` has a dangling reference to `s.D`, absent from the
table list. -/
def dbDangling : List TableInfo :=
  [{ name := "A", schema := "s", columns := [], primaryKeys := [],
     foreignKeys := [⟨"DId", "s", "D", "DId"⟩] }]

def allDangling : List CatalogTable := [⟨"s", "A", "s.A"⟩]

/-- Cyclic catalog: `A` references `B` and `B` references `A`. -/
def dbCyc : List TableInfo :=
  [{ name := "A", schema := "s", columns := [], primaryKeys := [],
     foreignKeys := [⟨"BId", "s", "B", "BId"⟩] },
   { name := "B", schema := "s", columns := [], primaryKeys := [],
     foreignKeys := [⟨"AId", "s", "A", "AId"⟩] }]

def allCyc : List CatalogTable := [⟨"s", "A", "s.A"⟩, ⟨"s", "B", "s.B"⟩]

/-! ### Helper lemmas -/

theorem lookup_snd_mem {α : Type} [BEq α] :
    ∀ (l : List (α × String)) (k : α) (v : String),
      l.lookup k = some v → v ∈ l.map Prod.snd := by
  intro l
  induction l with
  | nil => intro k v h; exact Option.noConfusion h
  | cons p l ih =>
    intro k v h
    rw [List.lookup] at h
    cases hk : k == p.1 with
    | false =>
      rw [hk] at h
      exact List.mem_cons_of_mem _ (ih k v h)
    | true =>
      rw [hk] at h
      have hv : p.2 = v := Option.some.inj h
      exact hv ▸ List.mem_cons_self _ _

/-! ### C6: table filtering -/

/-- **C6.** Table filtering selects exactly the tables whose full
`schema.table` name matches at least one pattern (OR across patterns);
an empty pattern list selects all tables; matching is case-insensitive
with `*` and `?` wildcards applied over the whole `schema.table` string;
`dbo.*` matches `dbo.Customer` and `dbo.Order` but not `Sales.Customer`,
and `*.Customer` matches both `dbo.Customer` and `Sales.Customer`. -/
theorem c6_filter_tables :
    (∀ tables : List CatalogTable, filterTables tables [] = tables.map (·.fullName)) ∧
    (∀ (tables : List CatalogTable) (patterns : List String) (t : String),
      patterns ≠ [] →
      (t ∈ filterTables tables patterns ↔
        ∃ ct ∈ tables, ct.fullName = t ∧
          ∃ p ∈ patterns, matchTablePattern t p = true)) ∧
    matchTablePattern "dbo.Customer" "dbo.*" = true ∧
    matchTablePattern "dbo.Order" "dbo.*" = true ∧
    matchTablePattern "Sales.Customer" "dbo.*" = false ∧
    matchTablePattern "dbo.Customer" "*.Customer" = true ∧
    matchTablePattern "Sales.Customer" "*.Customer" = true ∧
    matchTablePattern "DBO.CUSTOMER" "dbo.*" = true ∧
    matchTablePattern "dbo.Orders" "dbo.Order?" = true ∧
    matchTablePattern "dbo.Order" "dbo.Order?" = false := by
  refine ⟨fun tables => rfl, fun tables patterns t h => ?_, ?_, ?_, ?_, ?_, ?_, ?_, ?_, ?_⟩
  · simp only [filterTables, if_neg h, List.mem_map, List.mem_filter, List.any_eq_true]
    constructor
    · rintro ⟨ct, ⟨hmem, p, hp, hmatch⟩, rfl⟩
      exact ⟨ct, hmem, rfl, p, hp, hmatch⟩
    · rintro ⟨ct, hmem, rfl, p, hp, hmatch⟩
      exact ⟨ct, ⟨hmem, p, hp, hmatch⟩, rfl⟩
  all_goals decide

/-- Witness for C6: the characterization applied to a singleton catalog
and the pattern `dbo.*`. -/
theorem c6_filter_tables_witness :
    "dbo.Customer" ∈ filterTables [⟨"dbo", "Customer", "dbo.Customer"⟩] ["dbo.*"] :=
  (c6_filter_tables.2.1 [⟨"dbo", "Customer", "dbo.Customer"⟩] ["dbo.*"]
      "dbo.Customer" (by decide)).mpr
    ⟨⟨"dbo", "Customer", "dbo.Customer"⟩, by decide, rfl, "dbo.*", by decide, by decide⟩

/-! ### C7: type mapping totality -/

/-- **C7 counterexample.** `mapType` is not total-to-scalars: the input
`constructor` (lower-cased: itself) misses every own key of the literal,
but the JS bracket read then resolves the inherited
`Object.prototype.constructor` — a truthy non-string — which `||`
returns as-is, so the program yields an inherited object, not the
`String` scalar the claim requires; `__proto__` (and any case variant
such as `CONSTRUCTOR`) behaves the same. -/
theorem c7_counterexample :
    TYPE_MAP.lookup (lowerStr "constructor") = none ∧
    mapTypeJS "constructor" = .protoMember "constructor" ∧
    mapTypeJS "constructor" ≠ .str "String" ∧
    mapTypeJS "CONSTRUCTOR" = .protoMember "constructor" ∧
    mapTypeJS "__proto__" = .protoMember "__proto__" := by
  decide

/-- **C7 (amended).** For every input string whose lower-casing is
neither `constructor` nor `__proto__` — in particular every SQL type
name — the lookup of the lower-cased name returns a defined scalar
(one of the six in the static table plus the fallback), with every name
absent from the table (e.g. `geography`) mapping to the generic `String`
scalar; on the two exceptional inputs the bracket read hits a truthy
member inherited from `Object.prototype` and returns it instead of a
scalar, so generation would carry a non-string there rather than fail. -/
theorem c7_map_type_fallback :
    (∀ s : String, lowerStr s ≠ "constructor" → lowerStr s ≠ "__proto__" →
      mapTypeJS s = .str (mapType s) ∧
      mapType s ∈ (["Int", "Float", "String", "Boolean", "ID", "JSON"] : List String)) ∧
    (∀ s : String, TYPE_MAP.lookup (lowerStr s) = none → mapType s = "String") ∧
    (∀ s : String, mapType s = (TYPE_MAP.lookup (lowerStr s)).getD "String") ∧
    mapType "geography" = "String" ∧
    mapType "INT" = "Int" ∧
    mapType "uniqueidentifier" = "ID" := by
  refine ⟨fun s h₁ h₂ => ?_, fun s h => ?_, fun s => rfl, by decide, by decide, by decide⟩
  · cases h : TYPE_MAP.lookup (lowerStr s) with
    | none =>
      constructor
      · simp [mapTypeJS, typeMapLookup, mapType, h, h₁, h₂]
      · simp [mapType, h]
    | some v =>
      have hall : ∀ x ∈ TYPE_MAP.map Prod.snd,
          x ∈ (["Int", "Float", "String", "Boolean", "ID", "JSON"] : List String) := by
        decide
      constructor
      · simp [mapTypeJS, typeMapLookup, mapType, h]
      · simpa [mapType, h] using hall v (lookup_snd_mem TYPE_MAP (lowerStr s) v h)
  · simp [mapType, h]

/-- Witness for C7: the agreement-and-fallback clause applied to
`geography`, and the absent-key clause at the same input. -/
theorem c7_map_type_fallback_witness :
    (mapTypeJS "geography" = .str (mapType "geography") ∧
      mapType "geography" ∈
        (["Int", "Float", "String", "Boolean", "ID", "JSON"] : List String)) ∧
    mapType "geography" = "String" :=
  ⟨c7_map_type_fallback.1 "geography" (by decide) (by decide),
   c7_map_type_fallback.2.1 "geography" (by decide)⟩

/-! ### C8: pluralize/singularize round trip -/

/-- **C8.** For regular nouns — here: words ending in `<regular letter>s`
where the letter before the final `s` is none of `s`, `x`, `e`, `y`, `h`
(so no `es`/`ies`/`ss` ambiguity arises) — `pluralize (singularize x) = x`;
in particular `pluralize "order" = "orders"` and
`singularize "orders" = "order"`.  Nothing is asserted for ambiguous
words such as `status`. -/
theorem c8_pluralize_singularize :
    (∀ (x : String) (c : Char) (t : List Char),
      x.data.reverse = 's' :: c :: t →
      c ≠ 's' → c ≠ 'x' → c ≠ 'e' → c ≠ 'y' → c ≠ 'h' →
      TypeMapper.pluralize (TypeMapper.singularize x) = x) ∧
    TypeMapper.pluralize "order" = "orders" ∧
    TypeMapper.singularize "orders" = "order" ∧
    TypeMapper.pluralize (TypeMapper.singularize "orders") = "orders" := by
  refine ⟨?_, by decide, by decide, by decide⟩
  intro x c t hx hs hxx he hy hh
  have bs : ('s' == c) = false := beq_eq_false_iff_ne.mpr (Ne.symm hs)
  have bx : ('x' == c) = false := beq_eq_false_iff_ne.mpr (Ne.symm hxx)
  have be : ('e' == c) = false := beq_eq_false_iff_ne.mpr (Ne.symm he)
  have by2 : ('y' == c) = false := beq_eq_false_iff_ne.mpr (Ne.symm hy)
  have bh : ('h' == c) = false := beq_eq_false_iff_ne.mpr (Ne.symm hh)
  have hxd : x.data = (c :: t).reverse ++ ['s'] := by
    have := congrArg List.reverse hx
    rwa [List.reverse_reverse, List.reverse_cons] at this
  have hlen : (x.data).length - 1 = ((c :: t).reverse).length := by
    rw [hxd]; simp
  have hdrop : dropRightL x.data 1 = (c :: t).reverse := by
    rw [dropRightL, hlen, hxd, List.take_left]
  have hsing : TypeMapper.singularize x = ⟨(c :: t).reverse⟩ := by
    unfold TypeMapper.singularize TypeMapper.singularizeL
    rw [if_neg, if_neg, if_pos, hdrop]
    · simp [endsWithL, hx, List.isPrefixOf, bs]
    · simp [endsWithL, hx, List.isPrefixOf, be]
    · simp [endsWithL, hx, List.isPrefixOf, be]
  rw [hsing]
  unfold TypeMapper.pluralize TypeMapper.pluralizeL
  have hrev : (String.mk ((c :: t).reverse)).data.reverse = c :: t := by
    simp
  rw [if_neg, if_neg]
  · show (⟨(c :: t).reverse ++ ['s']⟩ : String) = x
    rw [← hxd]
  · rw [Bool.and_eq_true]
    rintro ⟨hyy, -⟩
    rw [endsWithL, hrev] at hyy
    simp [List.isPrefixOf, by2] at hyy
  · rw [endsWithL, endsWithL, endsWithL, endsWithL, hrev]
    simp [List.isPrefixOf, bs, bx, bh]

/-- Witness for C8: the round trip applied to `orders`. -/
theorem c8_pluralize_singularize_witness :
    TypeMapper.pluralize (TypeMapper.singularize "orders") = "orders" :=
  c8_pluralize_singularize.1 "orders" 'r' ['e', 'd', 'r', 'o'] (by decide)
    (by decide) (by decide) (by decide) (by decide) (by decide)

/-! ### C2: forward relationship field naming -/

/-- **C2 counterexample.** A foreign-key column `LastEditedBy` referencing
`People` yields the field name `lasteditedbyPeople`, not the
`lastEditedByPeople` the claim states: `toCamelCase` lower-cases the whole
column name (it has no underscore to split on). -/
theorem c2_counterexample :
    (generateType invoiceT true).fields.map (·.name) =
      ["invoiceid", "lasteditedbyPeople"] ∧
    "lasteditedbyPeople" ≠ "lastEditedByPeople" := by
  decide

/-- **C2 (amended).** Every foreign key contributes to the child type a
field named `<base><ReferencedPascal>`, nullable, typed by the referenced
table's PascalCase name, where the base is obtained from the camel-cased
column name by the four successive anchored replacements `Id`, `ID`,
`_id`, `_ID` (each applied at most once, in that order, so two suffixes
can be stripped in sequence); since camel-casing lower-cases every
character except the first of each underscore segment, `LastEditedBy` →
base `lasteditedby` → field `lasteditedbyPeople`. -/
theorem c2_forward_field_naming :
    (∀ (t : TableInfo) (fk : ForeignKeyInfo), fk ∈ t.foreignKeys →
      fkField fk ∈ (generateType t true).fields) ∧
    (∀ fk : ForeignKeyInfo,
      fkField fk =
        { name := fkFieldBase fk.columnName ++ toPascalCase fk.referencedTable
          type := toPascalCase fk.referencedTable
          nullable := true }) ∧
    fkFieldBase "LastEditedBy" = "lasteditedby" ∧
    fkFieldBase "LastEditedBy" ++ toPascalCase "People" = "lasteditedbyPeople" ∧
    fkFieldBase "customer_id" = "customer" ∧
    fkFieldBase "CustomerId" = "customerid" ∧
    fkFieldBase "x_i_d_id" = "x" := by
  refine ⟨?_, fun fk => rfl, by decide, by decide, by decide, by decide, by decide⟩
  intro t fk hfk
  unfold generateType
  rw [if_pos (by simp [List.length_pos_of_mem hfk])]
  exact List.mem_append_right _ (List.mem_map_of_mem fkField hfk)

/-- Witness for C2: the membership clause applied to the
`LastEditedBy → People` fixture. -/
theorem c2_forward_field_naming_witness :
    fkField ⟨"LastEditedBy", "dbo", "People", "PersonID"⟩ ∈
      (generateType invoiceT true).fields :=
  c2_forward_field_naming.1 invoiceT ⟨"LastEditedBy", "dbo", "People", "PersonID"⟩
    (by decide)

/-! ### C9: field and query assembly order -/

/-- **C9 counterexample.** For a table whose primary key is `[A, B]` with
only column `B` present, the claim's condition "has a primary key whose
column exists in the column list" holds (take `B`), yet the generator
emits no single-record query: only `primaryKeys[0]` is ever consulted. -/
theorem c9_counterexample :
    (∃ pk ∈ compositePkT.primaryKeys, ∃ col ∈ compositePkT.columns, col.name = pk) ∧
    (generateQueries compositePkT "db" false).map (·.name) =
      [TypeMapper.getListQueryName compositePkT.name] := by
  decide

/-- **C9 (amended).** The emitted type's field list is exactly the
column fields in column order followed by the relationship fields in
foreign-key order; the query list starts with the list-all query and has
a second (single-record) query precisely when the *first* primary-key
column is nonempty and appears among the columns; no further queries are
ever emitted. -/
theorem c9_assembly_order :
    ∀ (t : TableInfo) (db : String) (ef : Bool),
      (generateType t true).fields =
        t.columns.map columnField ++ t.foreignKeys.map fkField ∧
      (generateQueries t db ef).head? = some (listQuery t ef) ∧
      ((generateQueries t db ef).length = 2 ↔
        ∃ pk c, t.primaryKeys.head? = some pk ∧ pk ≠ "" ∧
          t.columns.find? (fun col => col.name == pk) = some c) ∧
      (generateQueries t db ef).length ≤ 2 := by
  intro t db ef
  refine ⟨?_, rfl, ?_, ?_⟩
  · cases h : t.foreignKeys with
    | nil => simp [generateType, h]
    | cons fk fks => simp [generateType, h]
  · simp only [generateQueries]
    cases h : t.primaryKeys.head? with
    | none => simp
    | some pk =>
      by_cases hpk : pk = ""
      · simp [hpk]
      · cases hfind : t.columns.find? (fun col => col.name == pk) with
        | none => simp [hpk, hfind]
        | some c => simp [hpk, hfind]
  · simp only [generateQueries]
    cases h : t.primaryKeys.head? with
    | none => simp
    | some pk =>
      by_cases hpk : pk = ""
      · simp [hpk]
      · cases hfind : t.columns.find? (fun col => col.name == pk) with
        | none => simp [hpk, hfind]
        | some c => simp [hpk, hfind]

/-! ### C10: composite primary keys use only the first column -/

/-- **C10.** For a table with a multi-column primary key the generator
uses only the first key column: the single-record query's sole argument
is the camel-cased first column with that column's mapped type; the
remaining key columns are ignored entirely (replacing them changes
nothing); and when the first key column is not among the columns no
single-record query is emitted at all. -/
theorem c10_composite_pk_first_column :
    ∀ (t : TableInfo) (db : String) (ef : Bool) (p₁ p₂ : String) (rest : List String),
      t.primaryKeys = p₁ :: p₂ :: rest → p₁ ≠ "" →
      (∀ c, t.columns.find? (fun col => col.name == p₁) = some c →
        generateQueries t db ef =
          [listQuery t ef,
           { name := TypeMapper.getSingleQueryName t.name
             returnType := toPascalCase t.name
             arguments := [⟨toCamelCase p₁, mapType c.dataType, true⟩]
             dbQuery := "SELECT * FROM " ++ t.schema ++ "." ++ t.name ++
               " WHERE " ++ p₁ ++ " = ?" }]) ∧
      (t.columns.find? (fun col => col.name == p₁) = none →
        generateQueries t db ef = [listQuery t ef]) ∧
      (∀ rest₂, generateQueries { t with primaryKeys := p₁ :: rest₂ } db ef =
        generateQueries t db ef) := by
  intro t db ef p₁ p₂ rest hpk hne
  refine ⟨fun c hfind => ?_, fun hfind => ?_, fun rest₂ => ?_⟩
  · simp [generateQueries, hpk, hne, hfind, listQuery]
  · simp [generateQueries, hpk, hne, hfind, listQuery]
  · simp [generateQueries, hpk, listQuery]

/-- A two-column-primary-key fixture for the C10 witness. -/
def multiPkT : TableInfo :=
  { name := "OrderLine", schema := "dbo"
    columns := [⟨"OrderId", "int", false⟩, ⟨"LineNo", "int", false⟩]
    primaryKeys := ["OrderId", "LineNo"]
    foreignKeys := [] }

/-- Witness for C10: the two-column key `["OrderId", "LineNo"]` produces a
single-record query keyed by `orderid` alone. -/
theorem c10_composite_pk_first_column_witness :
    generateQueries multiPkT "db" false =
      [listQuery multiPkT false,
       { name := "orderline"
         returnType := "Orderline"
         arguments := [⟨"orderid", "Int", true⟩]
         dbQuery := "SELECT * FROM dbo.OrderLine WHERE OrderId = ?" }] := by
  have h := (c10_composite_pk_first_column multiPkT "db" false "OrderId" "LineNo" []
    rfl (by decide)).1 ⟨"OrderId", "int", false⟩ (by decide)
  rw [h]
  decide

/-! ### C5: missing foreign-key target warnings -/

/-- **C5 counterexample.** With auto-include off, a foreign key to the
absent `dbo.Ghost` emits the warning, but the relationship field
(`ghostidGhost`) is still included in the generated type — the claim says
it is omitted. -/
theorem c5_counterexample :
    warnMissingForeignKeyTables ghostT ∅ ["dbo.Order"] =
      [⟨"dbo", "Order", "dbo.Ghost", "GhostId"⟩] ∧
    fkField ghostFK ∈ (generateType ghostT true).fields ∧
    (fkField ghostFK).name = "ghostidGhost" := by
  refine ⟨?_, ?_, by decide⟩
  · simp [warnMissingForeignKeyTables, ghostT, ghostFK]
  · decide

/-- **C5 (amended).** When relationship generation is on and auto-include
off, every foreign key whose referenced table is absent from the
generation list and from the processed set produces a non-fatal warning
naming the referencing table, the referenced table and the column, and
generation continues — but the relationship field for that edge is still
emitted on the child type, not omitted. -/
theorem c5_missing_fk_warning :
    ∀ (tableInfo : TableInfo) (processed : Finset String) (allTables : List String)
      (fk : ForeignKeyInfo),
      fk ∈ tableInfo.foreignKeys →
      fk.referencedSchema ++ "." ++ fk.referencedTable ∉ allTables →
      fk.referencedSchema ++ "." ++ fk.referencedTable ∉ processed →
      ({ referencingSchema := tableInfo.schema
         referencingName := tableInfo.name
         referencedFullName := fk.referencedSchema ++ "." ++ fk.referencedTable
         columnName := fk.columnName } : FKWarning) ∈
          warnMissingForeignKeyTables tableInfo processed allTables ∧
      fkField fk ∈ (generateType tableInfo true).fields := by
  intro tableInfo processed allTables fk hfk h₁ h₂
  constructor
  · refine List.mem_filterMap.mpr ⟨fk, hfk, ?_⟩
    simp only [if_pos (And.intro h₁ h₂)]
  · unfold generateType
    rw [if_pos (by simp [List.length_pos_of_mem hfk])]
    exact List.mem_append_right _ (List.mem_map_of_mem fkField hfk)

/-- Witness for C5: the fixture table referencing the absent `dbo.Ghost`. -/
theorem c5_missing_fk_warning_witness :
    ({ referencingSchema := "dbo", referencingName := "Order",
       referencedFullName := "dbo.Ghost", columnName := "GhostId" } : FKWarning) ∈
        warnMissingForeignKeyTables ghostT ∅ ["dbo.Order"] ∧
    fkField ghostFK ∈ (generateType ghostT true).fields :=
  c5_missing_fk_warning ghostT ∅ ["dbo.Order"] ghostFK (by decide) (by decide)
    (by simp)

/-! ### C1: no reverse relationship fields or queries are generated -/

/-- **C1 (code behavior at the failing input).** For the documented edge
`Order.CustomerId → Customer` with both tables processed, the generator
emits only the list and single-record queries (`customers`, `customer`,
`orders`, `order`) and gives `Customer` only its column fields: no
`orders` field and no `ordersByCustomerId` query exist, although the
repository README documents both. -/
theorem c1_code_behavior :
    (generateQueries customerT "db" false ++ generateQueries orderT "db" false).map
        (·.name) = ["customers", "customer", "orders", "order"] ∧
    (generateType customerT true).fields.map (·.name) = ["customerid", "name"] ∧
    "ordersByCustomerId" ∉
      (generateQueries customerT "db" false ++ generateQueries orderT "db" false).map
        (·.name) ∧
    ∀ f ∈ (generateType customerT true).fields, f.name ≠ "orders" := by
  decide

/-! ### C3: foreign-key closure -/

theorem fkStep_fst_subset (allTables : List CatalogTable)
    (acc : Finset String × List String) (fk : ForeignKeyInfo) :
    (fkStep allTables acc fk).1 ⊆ acc.1 ∪ (allTables.map (·.fullName)).toFinset := by
  unfold fkStep
  split
  · next h =>
    obtain ⟨hnot, hex⟩ := h
    refine Finset.insert_subset ?_ Finset.subset_union_left
    apply Finset.mem_union_right
    simp only [List.any_eq_true, beq_iff_eq] at hex
    obtain ⟨t, ht, hteq⟩ := hex
    simp only [List.mem_toFinset, List.mem_map]
    exact ⟨t, ht, hteq⟩
  · exact Finset.subset_union_left

theorem foldl_fkStep_fst_subset (allTables : List CatalogTable)
    (fks : List ForeignKeyInfo) :
    ∀ acc : Finset String × List String,
      (fks.foldl (fkStep allTables) acc).1 ⊆
        acc.1 ∪ (allTables.map (·.fullName)).toFinset := by
  induction fks with
  | nil => intro acc; exact Finset.subset_union_left
  | cons fk fks ih =>
    intro acc
    refine (ih (fkStep allTables acc fk)).trans ?_
    refine Finset.union_subset ((fkStep_fst_subset allTables acc fk).trans ?_)
      Finset.subset_union_right
    exact subset_rfl

theorem autoIncludeAux_subset (db : List TableInfo) (allTables : List CatalogTable) :
    ∀ (queue : List String) (tablesToProcess processed : Finset String),
      autoIncludeAux db allTables queue tablesToProcess processed ⊆
        tablesToProcess ∪ (allTables.map (·.fullName)).toFinset := by
  intro queue tablesToProcess processed
  induction queue, tablesToProcess, processed using autoIncludeAux.induct db allTables with
  | case1 tp processed =>
    rw [autoIncludeAux]
    exact Finset.subset_union_left
  | case2 tp processed tableName rest hmem ih =>
    rw [autoIncludeAux, if_pos hmem]
    exact ih
  | case3 tp processed tableName rest hmem parsed hnone =>
    rename_i ih
    have hnone' : getTableInfo db (parseTableName tableName).2
        (parseTableName tableName).1 = none := hnone
    rw [autoIncludeAux, if_neg hmem]
    simp only [hnone']
    exact ih
  | case4 tp processed tableName rest hmem parsed tableInfo =>
    rename_i hsome step ih
    have hsome' : getTableInfo db (parseTableName tableName).2
        (parseTableName tableName).1 = some tableInfo := hsome
    rw [autoIncludeAux, if_neg hmem]
    simp only [hsome']
    exact ih.trans (Finset.union_subset
      (foldl_fkStep_fst_subset allTables tableInfo.foreignKeys (tp, []))
      Finset.subset_union_right)

/-- **C3.** With relationship generation and auto-include both on, the
closure of the filtered set is computed: starting from `{s.A}` over the
chain `A → B → C` the generation set is `{s.A, s.B, s.C}`; a dangling
reference (`A → s.D` with `s.D` absent from the catalog) is skipped
without error and without being added; in general every member of the
result is either an initially filtered table or a table of the catalog
list. -/
theorem c3_auto_include_closure :
    autoIncludeForeignKeyTables dbABC ["s.A"] allABC = {"s.A", "s.B", "s.C"} ∧
    autoIncludeForeignKeyTables dbDangling ["s.A"] allDangling = {"s.A"} ∧
    (∀ (db : List TableInfo) (allTables : List CatalogTable)
        (filteredTables : List String),
      autoIncludeForeignKeyTables db filteredTables allTables ⊆
        filteredTables.toFinset ∪ (allTables.map (·.fullName)).toFinset) := by
  refine ⟨?_, ?_, fun db allTables filteredTables =>
    autoIncludeAux_subset db allTables _ _ _⟩
  · simp only [autoIncludeForeignKeyTables, dbABC, allABC]
    simp [autoIncludeAux, getTableInfo, parseTableName, splitChar, fkStep, List.find?]
    ext x
    simp
    tauto
  · simp only [autoIncludeForeignKeyTables, dbDangling, allDangling]
    simp [autoIncludeAux, getTableInfo, parseTableName, splitChar, fkStep, List.find?]

/-! ### C4: termination of the closure loop -/

/-- Fuelled mirror of the closure loop that additionally records, in
order, every table name whose foreign keys are fetched (each
`getTableInfo` call of the loop); `none` when the fuel runs out. -/
def autoIncludeTrace (db : List TableInfo) (allTables : List CatalogTable) :
    Nat → List String → Finset String → Finset String → List String →
      Option (Finset String × List String)
  | 0, _, _, _, _ => none
  | _ + 1, [], tablesToProcess, _, fetched => some (tablesToProcess, fetched)
  | fuel + 1, tableName :: rest, tablesToProcess, processed, fetched =>
    if tableName ∈ processed then
      autoIncludeTrace db allTables fuel rest tablesToProcess processed fetched
    else
      let parsed := parseTableName tableName
      match getTableInfo db parsed.2 parsed.1 with
      | none =>
        autoIncludeTrace db allTables fuel rest tablesToProcess
          (insert tableName processed) (fetched ++ [tableName])
      | some tableInfo =>
        let step := tableInfo.foreignKeys.foldl (fkStep allTables) (tablesToProcess, [])
        autoIncludeTrace db allTables fuel (rest ++ step.2) step.1
          (insert tableName processed) (fetched ++ [tableName])

theorem autoIncludeTrace_total (db : List TableInfo) (allTables : List CatalogTable) :
    ∀ (queue : List String) (tablesToProcess processed : Finset String)
      (fetched : List String),
      fetched.Nodup → (∀ x ∈ fetched, x ∈ processed) →
      ∃ fuel result,
        autoIncludeTrace db allTables fuel queue tablesToProcess processed fetched =
          some result ∧
        result.1 = autoIncludeAux db allTables queue tablesToProcess processed ∧
        result.2.Nodup := by
  intro queue tablesToProcess processed
  induction queue, tablesToProcess, processed using autoIncludeAux.induct db allTables with
  | case1 tp processed =>
    intro fetched hnd hsub
    exact ⟨1, (tp, fetched), rfl, by rw [autoIncludeAux], hnd⟩
  | case2 tp processed tableName rest hmem ih =>
    intro fetched hnd hsub
    obtain ⟨fuel, result, heq, hfst, hnd₂⟩ := ih fetched hnd hsub
    refine ⟨fuel + 1, result, ?_, ?_, hnd₂⟩
    · rw [autoIncludeTrace, if_pos hmem]; exact heq
    · rw [autoIncludeAux, if_pos hmem]; exact hfst
  | case3 tp processed tableName rest hmem parsed hnone =>
    rename_i ih
    intro fetched hnd hsub
    have hnone' : getTableInfo db (parseTableName tableName).2
        (parseTableName tableName).1 = none := hnone
    have hnotin : tableName ∉ fetched := fun hx => hmem (hsub tableName hx)
    have hnd' : (fetched ++ [tableName]).Nodup := by
      simp [List.nodup_append, hnd, hnotin]
    have hsub' : ∀ x ∈ fetched ++ [tableName], x ∈ insert tableName processed := by
      intro x hx
      rcases List.mem_append.mp hx with hx | hx
      · exact Finset.mem_insert_of_mem (hsub x hx)
      · simp only [List.mem_singleton] at hx
        exact hx ▸ Finset.mem_insert_self _ _
    obtain ⟨fuel, result, heq, hfst, hnd₂⟩ := ih (fetched ++ [tableName]) hnd' hsub'
    refine ⟨fuel + 1, result, ?_, ?_, hnd₂⟩
    · rw [autoIncludeTrace, if_neg hmem]
      simp only [hnone']
      exact heq
    · rw [autoIncludeAux, if_neg hmem]
      simp only [hnone']
      exact hfst
  | case4 tp processed tableName rest hmem parsed tableInfo =>
    rename_i hsome step ih
    intro fetched hnd hsub
    have hsome' : getTableInfo db (parseTableName tableName).2
        (parseTableName tableName).1 = some tableInfo := hsome
    have hnotin : tableName ∉ fetched := fun hx => hmem (hsub tableName hx)
    have hnd' : (fetched ++ [tableName]).Nodup := by
      simp [List.nodup_append, hnd, hnotin]
    have hsub' : ∀ x ∈ fetched ++ [tableName], x ∈ insert tableName processed := by
      intro x hx
      rcases List.mem_append.mp hx with hx | hx
      · exact Finset.mem_insert_of_mem (hsub x hx)
      · simp only [List.mem_singleton] at hx
        exact hx ▸ Finset.mem_insert_self _ _
    obtain ⟨fuel, result, heq, hfst, hnd₂⟩ := ih (fetched ++ [tableName]) hnd' hsub'
    refine ⟨fuel + 1, result, ?_, ?_, hnd₂⟩
    · rw [autoIncludeTrace, if_neg hmem]
      simp only [hsome']
      exact heq
    · rw [autoIncludeAux, if_neg hmem]
      simp only [hsome']
      exact hfst

/-- **C4.** The foreign-key closure loop terminates on every finite
catalog: for any starting queue and sets, some finite fuel makes the
fuelled mirror of the loop finish with the same set the loop computes,
and the trace of tables whose foreign keys were fetched has no
duplicates (each table is fetched at most once).  On the cyclic catalog
`A ↔ B` the closure from `{s.A}` reaches the fixed point `{s.A, s.B}`. -/
theorem c4_closure_terminates :
    (∀ (db : List TableInfo) (allTables : List CatalogTable) (queue : List String)
        (tablesToProcess processed : Finset String),
      ∃ fuel result,
        autoIncludeTrace db allTables fuel queue tablesToProcess processed [] =
          some result ∧
        result.1 = autoIncludeAux db allTables queue tablesToProcess processed ∧
        result.2.Nodup) ∧
    autoIncludeForeignKeyTables dbCyc ["s.A"] allCyc = {"s.A", "s.B"} := by
  constructor
  · intro db allTables queue tablesToProcess processed
    exact autoIncludeTrace_total db allTables queue tablesToProcess processed []
      List.nodup_nil (by simp)
  · simp only [autoIncludeForeignKeyTables, dbCyc, allCyc]
    simp [autoIncludeAux, getTableInfo, parseTableName, splitChar, fkStep, List.find?]
    ext x
    simp
    tauto

end Mssqlgen
